import Mathlib

/-!
# Verification of the PTrees panel-construction and normalization pipeline

A shallow embedding of the core data-pipeline functions of the PTrees
repository (`thesis-omxspi-pipeline`).  A pandas float column is modelled as
`List Cell` with `Cell := Option ℚ`: `none` is NaN (a missing value), `some v`
a present numeric value.  Each definition below mirrors one function of the
source; theorems at the end settle the specification claims.
-/

namespace PTrees

/-- A cell of a numeric dataframe column: `none` models NaN. -/
abbrev Cell := Option ℚ

/-- Positional access into a column; out-of-range reads give NaN,
matching positional indexing into a float column. -/
def cellAt : List Cell → ℕ → Cell
  | [], _ => none
  | x :: _, 0 => x
  | _ :: xs, i + 1 => cellAt xs i

/-- The non-missing values of a column, in order (pandas `dropna`). -/
def someVals (xs : List Cell) : List ℚ := xs.filterMap id

/-- Number of non-missing values (pandas `notna().sum()`). -/
def countSome (xs : List Cell) : ℕ := (someVals xs).length

/-- Insert into a sorted list of rationals. -/
def insertSorted (x : ℚ) : List ℚ → List ℚ
  | [] => [x]
  | y :: ys => if x ≤ y then x :: y :: ys else y :: insertSorted x ys

/-- Insertion sort on rationals (ascending). -/
def sortQ : List ℚ → List ℚ
  | [] => []
  | x :: xs => insertSorted x (sortQ xs)

/-- Minimum of a list of values (`Series.min` over non-missing data);
0 on an empty list, which the callers below never hit. -/
def listMin : List ℚ → ℚ
  | [] => 0
  | x :: xs => xs.foldl min x

/-- Maximum of a list of values (`Series.max` over non-missing data). -/
def listMax : List ℚ → ℚ
  | [] => 0
  | x :: xs => xs.foldl max x

/-- Linear-interpolation empirical quantile of the non-missing data, the
default of `Series.quantile` and `np.percentile` (`p` in `[0,1]`):
with sorted values `v_0 … v_(n-1)`, `h = p*(n-1)`, `j = ⌊h⌋`,
the quantile is `v_j + (h - j) * (v_(j+1) - v_j)`. -/
def quantileLinear (vals : List ℚ) (p : ℚ) : ℚ :=
  let s := sortQ vals
  if s.isEmpty then 0
  else
    let n := s.length
    let h : ℚ := p * ((n : ℚ) - 1)
    let j : ℕ := (⌊h⌋).toNat
    let frac : ℚ := h - (⌊h⌋ : ℚ)
    let vj := s.getD j 0
    let vj1 := s.getD (min (j + 1) (n - 1)) 0
    vj + frac * (vj1 - vj)

/-- Pandas `Series.clip(lower, upper)` on one value. -/
def clipQ (lo hi x : ℚ) : ℚ := min hi (max lo x)

/-- Source `ptree_prep.winsorize_characteristics`, one characteristic column within
one month: if at least 5 non-missing observations exist, clip every
non-missing value to the `[lowerPct, upperPct]` empirical quantiles of the
month's non-missing data; otherwise leave the column untouched.
NaN cells are unaffected by `clip`. -/
def winsorizeMonth (lowerPct upperPct : ℚ) (cells : List Cell) : List Cell :=
  if 5 ≤ countSome cells then
    let lo := quantileLinear (someVals cells) lowerPct
    let hi := quantileLinear (someVals cells) upperPct
    cells.map (fun c => c.map (clipQ lo hi))
  else cells

/-- Source `ptree_prep.standardize_characteristics` (`method="minmax"`), one
characteristic column within one month: skipped when fewer than 2
non-missing observations exist; if the non-missing min equals the max the
whole column is set to `0.0` (the source assigns the scalar to every row of
the group); otherwise every value is mapped by
`2*(x - min)/(max - min) - 1` (NaN stays NaN). -/
def standardizeMinmaxMonth (cells : List Cell) : List Cell :=
  let valid := someVals cells
  if valid.length < 2 then cells
  else
    let mn := listMin valid
    let mx := listMax valid
    if mn = mx then cells.map (fun _ => some 0)
    else cells.map (fun c => c.map (fun v => 2 * (v - mn) / (mx - mn) - 1))

/-- Source `ptree_prep.fill_missing_values`: `fillna(fillValue)` on the column. -/
def fillMissing (fillValue : ℚ) (cells : List Cell) : List Cell :=
  cells.map (fun c => some (c.getD fillValue))

/-- The Cross-Sectional Normalizer in minmax mode on one characteristic
column within one month, in the mandatory order of
`ptree_prep.prepare_tree_input`: winsorize at 1%/99%, min-max rescale to
`[-1,1]`, then neutral-fill missing values with 0. -/
def normalizeColumn (cells : List Cell) : List Cell :=
  fillMissing 0 (standardizeMinmaxMonth (winsorizeMonth (1/100) (99/100) cells))

/-! ## Monthly alignment of fundamentals (forward-fill)

`final_working_pipeline.fetch_working_data`, step 6: per entity the report
rows (sorted by date, duplicates already dropped with quarterly preferred)
are reprojected onto the canonical month-end grid by
`set_index("date").reindex(monthly_dates, method="ffill")`: the row used for
month `m` is the last report row whose date is `≤ m`; before the first
report every cell is NaN.  Dates are modelled as natural numbers. -/

/-- The last row in list order whose date is `≤ m` (the row `reindex` with
`method="ffill"` selects for target date `m`); `none` when no such row
exists.  On a date-sorted list this is the most recent report as of `m`. -/
def lastLE (m : ℕ) : List (ℕ × Cell) → Option (ℕ × Cell)
  | [] => none
  | r :: rest =>
    if r.1 ≤ m then
      match lastLE m rest with
      | none => some r
      | some r' => some r'
    else lastLE m rest

/-- The monthly-aligned fundamental value at month-end `m`: the cell carried
by the most recent report row with date `≤ m`, `none` before the first
report. -/
def alignedValue (rows : List (ℕ × Cell)) (m : ℕ) : Cell :=
  match lastLE m rows with
  | none => none
  | some r => r.2

/-! ## Trailing windows: TTM sums and momentum -/

/-- The pandas rolling window ending at row `i`: the last `min (i+1) k`
entries of the prefix `xs[0..i]`. -/
def windowEnd (k : ℕ) (xs : List Cell) (i : ℕ) : List Cell :=
  (xs.take (i + 1)).drop (i + 1 - k)

/-- Sum of a list of rationals. -/
def sumQ (vals : List ℚ) : ℚ := vals.foldl (· + ·) 0

/-- Pandas `rolling(k, min_periods=k).sum()` per entity
(`final_working_pipeline.fetch_working_data`, step 5, TTM fields with
`k = 4`): at row `i` the value is the sum of the non-missing entries of the
trailing window when at least `k` of them are non-missing (with window
size `≤ k` that means a full window of `k` non-missing rows), else NaN. -/
def rollingSumMin (k : ℕ) (xs : List Cell) : List Cell :=
  (List.range xs.length).map (fun i =>
    if k ≤ countSome (windowEnd k xs i) then
      some (sumQ (someVals (windowEnd k xs i)))
    else none)

/-- Pandas `groupby("ric")["ret"].shift(1)` within one entity return column:
every value moves down one row, a NaN enters at the top. -/
def shift1 (xs : List Cell) : List Cell := none :: xs.dropLast

/-- Product of `(1 + r)` over a list of returns. -/
def prodOnePlus (vals : List ℚ) : ℚ := vals.foldl (fun a r => a * (1 + r)) 1

/-- The 12-1 momentum column as the code computes it
(`final_working_pipeline.fetch_working_data`, step 9:
`(1 + ret.shift(1)).rolling(11, min_periods=11).apply(np.prod) - 1`, and
equivalently `characteristics.compute_core_characteristics`, where
`rolling(11)` defaults to `min_periods=11`): at row `i` the value is
non-missing only when all 11 entries of the trailing window of the shifted
return column are non-missing. -/
def momCode (rets : List Cell) : List Cell :=
  (List.range (shift1 rets).length).map (fun i =>
    if 11 ≤ countSome (windowEnd 11 (shift1 rets) i) then
      some (prodOnePlus (someVals (windowEnd 11 (shift1 rets) i)) - 1)
    else none)

/-- The 12-1 momentum rule the guard inside
`characteristics.compute_core_characteristics` expresses
(`(1+x).prod() - 1 if len(x.dropna()) >= 6 else nan`): non-missing as soon
as at least 6 returns in the 11-month window are non-missing, the product
taken over the non-missing returns. -/
def momGuardIntended (rets : List Cell) : List Cell :=
  (List.range (shift1 rets).length).map (fun i =>
    if 6 ≤ countSome (windowEnd 11 (shift1 rets) i) then
      some (prodOnePlus (someVals (windowEnd 11 (shift1 rets) i)) - 1)
    else none)

/-! ## Universe Resolver (`universe.build_universe`) -/

/-- One row of the universe table: month-end date, constituent identifier
(`None` in the error placeholder row), and the error message column
(`NaN` on normal rows). -/
structure URow where
  date : ℕ
  ric : Option String
  err : Option String
deriving DecidableEq

/-- Source `_fetch_constituents_asof` wrapped in the try/except of `build_universe`:
a successful lookup yields one row per constituent; a failed lookup yields
the single placeholder row `{date: d, ric: None, error: str(e)}`. -/
def fetchFrame (fetch : ℕ → Except String (List String)) (d : ℕ) : List URow :=
  match fetch d with
  | .ok rics => rics.map (fun r => ⟨d, some r, none⟩)
  | .error e => [⟨d, none, some e⟩]

/-- Pandas `drop_duplicates` keeping the first occurrence, with an accumulator of
rows already seen. -/
def dedupFirstAux {α : Type} [DecidableEq α] (seen : List α) : List α → List α
  | [] => []
  | x :: xs =>
    if x ∈ seen then dedupFirstAux seen xs
    else x :: dedupFirstAux (x :: seen) xs

/-- Pandas `DataFrame.drop_duplicates()` (keep first occurrence). -/
def dedupFirst {α : Type} [DecidableEq α] (l : List α) : List α :=
  dedupFirstAux [] l

/-- Source `universe.build_universe`: fetch the constituents for every month-end,
concatenate the frames, then `dropna(subset=["ric"]).drop_duplicates()`.
The `dropna` removes every row whose `ric` is null — including the error
placeholder rows appended for failed months. -/
def buildUniverse (fetch : ℕ → Except String (List String))
    (dates : List ℕ) : List URow :=
  dedupFirst (((dates.map (fetchFrame fetch)).flatten).filter
    (fun r => r.ric.isSome))

/-! ## Volume cleaning and volume-based characteristics -/

/-- Source `final_working_pipeline.fetch_working_data`, step 3:
`volume_msum = to_numeric(volume_msum).fillna(0)` — genuine zeros are kept,
every NaN becomes 0 before any characteristic is computed. -/
def cleanVolume (vols : List Cell) : List Cell :=
  vols.map (fun v => some (v.getD 0))

/-- Source `turnover = volume_msum / shares_outstanding`, computed only on the
mask `volume.notna & shares.notna & shares != 0`
(`final_working_pipeline.fetch_working_data`, step 9); outside the mask
the cell stays NaN. -/
def turnoverCell (vol sh : Cell) : Cell :=
  match vol, sh with
  | some v, some s => if s ≠ 0 then some (v / s) else none
  | _, _ => none

/-- Source `dolvol = volume_msum * close` on the mask
`volume.notna & close.notna`; NaN outside the mask. -/
def dolvolCell (vol close : Cell) : Cell :=
  match vol, close with
  | some v, some c => some (v * c)
  | _, _ => none

/-- Source `characteristics.compute_core_characteristics`:
`zerotrade = (volume == 0).astype(int)`.  In pandas `NaN == 0` is `False`,
so the indicator is an integer column with no missing entries: 1 exactly on
a present value equal to 0, else 0 — also 0 on missing volume. -/
def zerotradeCell (v : Cell) : ℤ :=
  match v with
  | some x => if x = 0 then 1 else 0
  | none => 0

/-! ## Panel structure validation and the preprocessing entry point
(`ptree_prep.validate_panel_structure`, `prepare_tree_input`) -/

/-- One row of an input panel: identity fields plus the cells of the data
columns (aligned with `Panel.charNames`). -/
structure PanelRow where
  ric : String
  date : ℕ
  chars : List Cell
deriving DecidableEq

/-- An input panel: its column-name list, the names of its numeric data
columns, and its rows. -/
structure Panel where
  cols : List String
  charNames : List String
  rows : List PanelRow

/-- Source `validate_panel_structure`: fails when a required identity column
(`ric`, `date`) is absent or the panel is empty.  Duplicate `(ric, date)`
pairs are only counted and printed as a warning — the function still
returns `True` for a panel containing them. -/
def validatePanelStructure (p : Panel) : Bool :=
  (p.cols.contains "ric" && p.cols.contains "date") && !p.rows.isEmpty

/-- Pandas `panel.duplicated(subset=["ric","date"]).sum()`: the number of rows
whose `(ric, date)` pair already occurred earlier in the panel. -/
def duplicateCount (p : Panel) : ℕ :=
  p.rows.length - (dedupFirst (p.rows.map (fun r => (r.ric, r.date)))).length

/-- The non-characteristic column names of
`ptree_prep.identify_characteristics`. -/
def nonCharCols : List String :=
  ["ric", "date", "ret", "mkt_cap", "close", "adj_close", "volume",
   "price", "shares_outstanding", "market_cap", "freq",
   "totalassets", "shareholdersequity", "netincome", "operatingincome",
   "revenue", "commonsharesoutstanding", "epsnormalized", "epsreported",
   "cashfromoperations", "grossprofit", "totaldebt", "longtermdebt",
   "currentassets", "currentliabilities", "grossmargin", "operatingmargin",
   "debttoassets", "rdexpense", "advertisingexpense",
   "trbc_sector", "trbc_industry", "icb_industry", "icb_supersector"]

/-- Whether the first list of characters starts with the second. -/
def charsStartWith : List Char → List Char → Bool
  | _, [] => true
  | [], _ :: _ => false
  | c :: cs, d :: ds => c == d && charsStartWith cs ds

/-- Whether the needle occurs as a contiguous substring of the haystack. -/
def charsContain (hay needle : List Char) : Bool :=
  match hay with
  | [] => needle.isEmpty
  | _ :: t => charsStartWith hay needle || charsContain t needle

/-- Python `"error" in col.lower()` — the column name contains the substring
`error` after lowercasing. -/
def hasErrSub (s : String) : Bool :=
  charsContain (s.data.map Char.toLower) "error".data

/-- Source `identify_characteristics`: the numeric data columns that are neither
in the exclusion list nor error columns. -/
def identifyCharacteristics (p : Panel) : List String :=
  p.charNames.filter (fun c => !(nonCharCols.contains c) && !(hasErrSub c))

/-- Cross-sectional normalization of the whole panel: for every row and
every characteristic column, the value is the row's position within its
calendar period in the period's normalized column (winsorize, minmax
rescale, fill — `prepare_tree_input` steps 4-6 applied per month).
Columns not identified as characteristics pass through unchanged. -/
def normalizePanel (p : Panel) : Panel :=
  { p with rows := (List.range p.rows.length).map (fun i =>
      let r := p.rows.getD i ⟨"", 0, []⟩
      let pos := ((p.rows.take i).filter (fun r2 => r2.date = r.date)).length
      { r with chars := (List.range r.chars.length).map (fun j =>
          if (identifyCharacteristics p).contains
              (p.charNames.getD j "") = false then cellAt r.chars j
          else
            let monthCol := p.rows.filterMap (fun r2 =>
              if r2.date = r.date then some (cellAt r2.chars j) else none)
            cellAt (normalizeColumn monthCol) pos) }) }

/-- Source `prepare_tree_input` (factors absent, so `build_tree_ready` is the
identity): validate the structure — raising `ValueError` on failure —
then require at least one characteristic column, then winsorize,
standardize and fill per month. -/
def prepareTreeInput (p : Panel) : Except String Panel :=
  if validatePanelStructure p = false then
    .error "Panel validation failed"
  else if (identifyCharacteristics p).isEmpty then
    .error "No characteristic columns found in panel"
  else
    .ok (normalizePanel p)

/-- Returns `true` exactly on a non-raising result. -/
def exceptOk {ε α : Type} : Except ε α → Bool
  | .ok _ => true
  | .error _ => false

/-! ## Helper lemmas about columns -/

lemma cellAt_eq_getElem (xs : List Cell) (i : ℕ) (h : i < xs.length) :
    cellAt xs i = xs[i] := by
  induction xs generalizing i with
  | nil => simp at h
  | cons x t ih =>
    cases i with
    | zero => rfl
    | succ j => simpa [cellAt] using ih j (by simpa using h)

lemma cellAt_oob (xs : List Cell) (i : ℕ) (h : xs.length ≤ i) :
    cellAt xs i = none := by
  induction xs generalizing i with
  | nil => rfl
  | cons x t ih =>
    cases i with
    | zero => simp at h
    | succ j => simpa [cellAt] using ih j (by simpa using h)

lemma cellAt_some_lt {xs : List Cell} {i : ℕ} {v : ℚ}
    (h : cellAt xs i = some v) : i < xs.length := by
  by_contra hc
  rw [cellAt_oob xs i (by omega)] at h
  exact Option.noConfusion h

lemma cellAt_map (f : Cell → Cell) (xs : List Cell) (i : ℕ)
    (h : i < xs.length) : cellAt (xs.map f) i = f (cellAt xs i) := by
  rw [cellAt_eq_getElem _ _ (by simpa using h), cellAt_eq_getElem _ _ h]
  simp

lemma cellAt_range_map (g : ℕ → Cell) (n i : ℕ) (h : i < n) :
    cellAt ((List.range n).map g) i = g i := by
  rw [cellAt_eq_getElem _ _ (by simpa using h)]
  simp

lemma mem_someVals {v : ℚ} {xs : List Cell} :
    v ∈ someVals xs ↔ some v ∈ xs := by
  simp [someVals, List.mem_filterMap]

lemma someVals_map (f : ℚ → ℚ) (xs : List Cell) :
    someVals (xs.map (Option.map f)) = (someVals xs).map f := by
  induction xs with
  | nil => rfl
  | cons x t ih => cases x <;> simp [someVals, List.filterMap] at ih ⊢ <;>
      simpa [someVals] using ih

lemma countSome_map (f : ℚ → ℚ) (xs : List Cell) :
    countSome (xs.map (Option.map f)) = countSome xs := by
  simp [countSome, someVals_map]

lemma countSome_le_length (xs : List Cell) : countSome xs ≤ xs.length := by
  simpa [countSome, someVals] using List.length_filterMap_le id xs

lemma countSome_eq_length (xs : List Cell) :
    countSome xs = xs.length ↔ ∀ c ∈ xs, c.isSome := by
  induction xs with
  | nil => simp [countSome, someVals]
  | cons x t ih =>
    cases x with
    | none =>
      have hle := countSome_le_length t
      have hc : countSome (none :: t) = countSome t := by
        simp [countSome, someVals]
      constructor
      · intro h
        rw [hc] at h
        simp only [List.length_cons] at h
        omega
      · intro h
        exact absurd (h none (List.mem_cons_self _ _)) (by simp)
    | some v =>
      have hc : countSome (some v :: t) = countSome t + 1 := by
        simp [countSome, someVals]
      constructor
      · intro h c hcm
        rcases List.mem_cons.mp hcm with rfl | hm
        · simp
        · refine (ih.mp ?_) c hm
          rw [hc] at h
          simp only [List.length_cons] at h
          omega
      · intro h
        rw [hc, ih.mpr (fun c hcm => h c (List.mem_cons_of_mem _ hcm))]
        simp

lemma foldl_min_le_init (xs : List ℚ) (a : ℚ) : xs.foldl min a ≤ a := by
  induction xs generalizing a with
  | nil => simp
  | cons x t ih => exact le_trans (ih (min a x)) (min_le_left a x)

lemma foldl_min_le_mem {x : ℚ} (xs : List ℚ) (a : ℚ) (h : x ∈ xs) :
    xs.foldl min a ≤ x := by
  induction xs generalizing a with
  | nil => simp at h
  | cons y t ih =>
    rcases List.mem_cons.mp h with rfl | hm
    · exact le_trans (foldl_min_le_init t (min a x)) (min_le_right a x)
    · exact ih (min a y) hm

lemma listMin_le_mem {x : ℚ} {l : List ℚ} (h : x ∈ l) : listMin l ≤ x := by
  cases l with
  | nil => simp at h
  | cons y t =>
    rcases List.mem_cons.mp h with rfl | hm
    · simpa [listMin] using foldl_min_le_init t x
    · simpa [listMin] using foldl_min_le_mem t y hm

lemma le_foldl_max_init (xs : List ℚ) (a : ℚ) : a ≤ xs.foldl max a := by
  induction xs generalizing a with
  | nil => simp
  | cons x t ih => exact le_trans (le_max_left a x) (ih (max a x))

lemma le_foldl_max_mem {x : ℚ} (xs : List ℚ) (a : ℚ) (h : x ∈ xs) :
    x ≤ xs.foldl max a := by
  induction xs generalizing a with
  | nil => simp at h
  | cons y t ih =>
    rcases List.mem_cons.mp h with rfl | hm
    · exact le_trans (le_max_right a x) (le_foldl_max_init t (max a x))
    · exact ih (max a y) hm

lemma le_listMax_mem {x : ℚ} {l : List ℚ} (h : x ∈ l) : x ≤ listMax l := by
  cases l with
  | nil => simp at h
  | cons y t =>
    rcases List.mem_cons.mp h with rfl | hm
    · simpa [listMax] using le_foldl_max_init t x
    · simpa [listMax] using le_foldl_max_mem t y hm

lemma listMin_le_listMax {l : List ℚ} (h : l ≠ []) :
    listMin l ≤ listMax l := by
  cases l with
  | nil => exact absurd rfl h
  | cons y t =>
    exact le_trans (listMin_le_mem (List.mem_cons_self y t))
      (le_listMax_mem (List.mem_cons_self y t))

lemma minmax_bounds {v mn mx : ℚ} (h1 : mn ≤ v) (h2 : v ≤ mx)
    (h3 : mn < mx) :
    -1 ≤ 2 * (v - mn) / (mx - mn) - 1 ∧ 2 * (v - mn) / (mx - mn) - 1 ≤ 1 := by
  have hd : (0 : ℚ) < mx - mn := by linarith
  constructor
  · have hnum : (0 : ℚ) ≤ 2 * (v - mn) := by linarith
    have := div_nonneg hnum (le_of_lt hd)
    linarith
  · have : 2 * (v - mn) / (mx - mn) ≤ 2 := by
      rw [div_le_iff₀ hd]
      linarith
    linarith

lemma countSome_winsorize (lo hi : ℚ) (cells : List Cell) :
    countSome (winsorizeMonth lo hi cells) = countSome cells := by
  unfold winsorizeMonth
  split
  · exact countSome_map _ cells
  · rfl

lemma length_winsorize (lo hi : ℚ) (cells : List Cell) :
    (winsorizeMonth lo hi cells).length = cells.length := by
  unfold winsorizeMonth
  split <;> simp

lemma length_standardize (cells : List Cell) :
    (standardizeMinmaxMonth cells).length = cells.length := by
  simp only [standardizeMinmaxMonth]
  split
  · rfl
  · split <;> simp

lemma length_fill (fv : ℚ) (cells : List Cell) :
    (fillMissing fv cells).length = cells.length := by
  simp [fillMissing]

lemma length_normalizeColumn (cells : List Cell) :
    (normalizeColumn cells).length = cells.length := by
  rw [normalizeColumn, length_fill, length_standardize, length_winsorize]

lemma someVals_all_eq {v : ℚ} :
    ∀ cells : List Cell, (∀ c ∈ cells, c = some v) →
      someVals cells = List.replicate cells.length v := by
  intro cells
  induction cells with
  | nil => intro _; rfl
  | cons x t ih =>
    intro h
    have hx : x = some v := h x (List.mem_cons_self _ _)
    subst hx
    have := ih (fun c hc => h c (List.mem_cons_of_mem _ hc))
    simp [someVals, List.replicate_succ] at this ⊢
    exact this

lemma foldl_min_replicate (n : ℕ) (v : ℚ) :
    (List.replicate n v).foldl min v = v := by
  induction n with
  | zero => rfl
  | succ k ih => simpa [List.replicate_succ, min_self] using ih

lemma listMin_replicate (n : ℕ) (v : ℚ) :
    listMin (List.replicate (n + 1) v) = v := by
  simpa [List.replicate_succ, listMin] using foldl_min_replicate n v

lemma foldl_max_replicate (n : ℕ) (v : ℚ) :
    (List.replicate n v).foldl max v = v := by
  induction n with
  | zero => rfl
  | succ k ih => simpa [List.replicate_succ, max_self] using ih

lemma listMax_replicate (n : ℕ) (v : ℚ) :
    listMax (List.replicate (n + 1) v) = v := by
  simpa [List.replicate_succ, listMax] using foldl_max_replicate n v

lemma lastLE_none (m : ℕ) :
    ∀ rows : List (ℕ × Cell), (∀ r ∈ rows, m < r.1) →
      lastLE m rows = none := by
  intro rows
  induction rows with
  | nil => intro _; rfl
  | cons a t ih =>
    intro h
    have ha : ¬ a.1 ≤ m := by
      have := h a (List.mem_cons_self _ _)
      omega
    simp only [lastLE, if_neg ha]
    exact ih (fun r hr => h r (List.mem_cons_of_mem _ hr))

lemma lastLE_mostRecent (m : ℕ) :
    ∀ rows : List (ℕ × Cell),
      rows.Pairwise (fun a b => a.1 < b.1) →
      ∀ r ∈ rows, r.1 ≤ m →
      (∀ r' ∈ rows, r'.1 ≤ m → r'.1 ≤ r.1) →
      lastLE m rows = some r := by
  intro rows
  induction rows with
  | nil => intro _ r hr; simp at hr
  | cons a t ih =>
    intro hsort r hr hle hmax
    obtain ⟨hhead, htail⟩ := List.pairwise_cons.mp hsort
    rcases List.mem_cons.mp hr with rfl | hmem
    · have hnone : lastLE m t = none := by
        refine lastLE_none m t (fun r' hr' => ?_)
        by_contra hc
        push_neg at hc
        have h1 := hhead r' hr'
        have h2 := hmax r' (List.mem_cons_of_mem _ hr') hc
        omega
      simp [lastLE, hle, hnone]
    · have ha : a.1 ≤ m := le_of_lt (lt_of_lt_of_le (hhead r hmem) hle)
      have hrec := ih htail r hmem hle
        (fun r' hr' hle' => hmax r' (List.mem_cons_of_mem _ hr') hle')
      simp [lastLE, ha, hrec]

lemma lastLE_filter (m : ℕ) :
    ∀ rows : List (ℕ × Cell),
      lastLE m (rows.filter (fun r => r.1 ≤ m)) = lastLE m rows := by
  intro rows
  induction rows with
  | nil => rfl
  | cons a t ih =>
    by_cases h : a.1 ≤ m
    · simp [List.filter_cons, h, lastLE, ih]
    · simp [List.filter_cons, h, lastLE, ih]

lemma length_windowEnd (k : ℕ) (xs : List Cell) (i : ℕ)
    (h : i < xs.length) : (windowEnd k xs i).length = min (i + 1) k := by
  simp only [windowEnd, List.length_drop, List.length_take]
  omega

lemma cellAt_rollingSumMin (k : ℕ) (xs : List Cell) (i : ℕ)
    (h : i < xs.length) :
    cellAt (rollingSumMin k xs) i =
      if k ≤ countSome (windowEnd k xs i) then
        some (sumQ (someVals (windowEnd k xs i)))
      else none := by
  rw [rollingSumMin, cellAt_range_map _ _ _ h]

/-! ## Claims -/

/-- C1: for every entity and canonical month-end `m`, the monthly-aligned
fundamental value at `m` equals the most recent raw report with effective
date `≤ m` (forward-fill), is missing — never zero — for every month before
the entity's first report, and never depends on any raw observation dated
strictly after `m` (restricting the report rows to dates `≤ m` leaves the
aligned value unchanged). -/
theorem c1_monthly_alignment (rows : List (ℕ × Cell)) (m : ℕ)
    (hsort : rows.Pairwise (fun a b => a.1 < b.1)) :
    ((∀ r ∈ rows, m < r.1) → alignedValue rows m = none) ∧
    (∀ r ∈ rows, r.1 ≤ m → (∀ r' ∈ rows, r'.1 ≤ m → r'.1 ≤ r.1) →
      alignedValue rows m = r.2) ∧
    alignedValue rows m = alignedValue (rows.filter (fun r => r.1 ≤ m)) m := by
  refine ⟨?_, ?_, ?_⟩
  · intro h
    unfold alignedValue
    rw [lastLE_none m rows h]
  · intro r hr hle hmax
    unfold alignedValue
    rw [lastLE_mostRecent m rows hsort r hr hle hmax]
  · unfold alignedValue
    rw [lastLE_filter m rows]

/-- The report rows of the C1 witness: reports effective at months 3 and 7. -/
def c1rows : List (ℕ × Cell) := [(3, some 10), (7, some 20)]

/-- Witness for C1: at month-end 5 the aligned value is the month-3
report's value. -/
theorem c1_witness :
    c1rows.Pairwise (fun a b => a.1 < b.1) ∧ alignedValue c1rows 5 = some 10 :=
  ⟨by decide, (c1_monthly_alignment c1rows 5 (by decide)).2.1 (3, some 10)
    (by decide) (by decide) (by decide)⟩

/-- C3: the trailing-sum (TTM) series with floor `K = 4` is non-missing at a
row exactly when the trailing window holds 4 rows (`3 ≤ i`) that are all
non-missing, in which case it equals their sum; with fewer than 4 valid
underlying periods the value is missing (`none`), never zero-filled. -/
theorem c3_ttm_floor (xs : List Cell) (i : ℕ) (h : i < xs.length) :
    (rollingSumMin 4 xs).length = xs.length ∧
    (∀ s : ℚ, cellAt (rollingSumMin 4 xs) i = some s ↔
      (3 ≤ i ∧ (∀ c ∈ windowEnd 4 xs i, c.isSome) ∧
        s = sumQ (someVals (windowEnd 4 xs i)))) ∧
    (countSome (windowEnd 4 xs i) < 4 → cellAt (rollingSumMin 4 xs) i = none) := by
  have hw := length_windowEnd 4 xs i h
  have hcell := cellAt_rollingSumMin 4 xs i h
  have hle := countSome_le_length (windowEnd 4 xs i)
  refine ⟨by simp [rollingSumMin], ?_, ?_⟩
  · intro s
    constructor
    · intro hs
      rw [hcell] at hs
      by_cases hcond : 4 ≤ countSome (windowEnd 4 xs i)
      · rw [if_pos hcond] at hs
        have hi3 : 3 ≤ i := by omega
        have hall : ∀ c ∈ windowEnd 4 xs i, c.isSome :=
          (countSome_eq_length _).mp (by omega)
        injection hs with hs'
        exact ⟨hi3, hall, hs'.symm⟩
      · rw [if_neg hcond] at hs
        exact absurd hs (by simp)
    · rintro ⟨hi3, hall, rfl⟩
      have hcnt : countSome (windowEnd 4 xs i) = (windowEnd 4 xs i).length :=
        (countSome_eq_length _).mpr hall
      rw [hcell, if_pos (by omega)]
  · intro hlt
    rw [hcell, if_neg (by omega)]

lemma standardize_mem_bounds {cells : List Cell} (h2 : 2 ≤ countSome cells) :
    ∀ c ∈ standardizeMinmaxMonth cells, ∀ v : ℚ, c = some v →
      -1 ≤ v ∧ v ≤ 1 := by
  intro c hc v hv
  subst hv
  have h2' : ¬ ((someVals cells).length < 2) := by
    have : countSome cells = (someVals cells).length := rfl
    omega
  simp only [standardizeMinmaxMonth] at hc
  rw [if_neg h2'] at hc
  by_cases hmm : listMin (someVals cells) = listMax (someVals cells)
  · rw [if_pos hmm] at hc
    obtain ⟨x, _, hcx⟩ := List.mem_map.mp hc
    have : v = 0 := by
      have := hcx.symm
      injection this
    subst this
    norm_num
  · rw [if_neg hmm] at hc
    obtain ⟨x, hx, hcx⟩ := List.mem_map.mp hc
    cases x with
    | none => simp at hcx
    | some u =>
      have hu : u ∈ someVals cells := mem_someVals.mpr hx
      have hne : someVals cells ≠ [] := by
        intro hnil
        rw [hnil] at h2'
        simp at h2'
      have hlt : listMin (someVals cells) < listMax (someVals cells) :=
        lt_of_le_of_ne (listMin_le_listMax hne) hmm
      have hv : v = 2 * (u - listMin (someVals cells)) /
          (listMax (someVals cells) - listMin (someVals cells)) - 1 := by
        simp only [Option.map_some'] at hcx
        injection hcx with h'
        exact h'.symm
      rw [hv]
      exact minmax_bounds (listMin_le_mem hu) (le_listMax_mem hu) hlt

/-- C2 (amended): after the normalizer runs in minmax mode, no value in any
period is missing; and in every period with at least 2 non-missing raw
observations, every value lies within `[-1, 1]`.  (In a period with fewer
than 2 non-missing observations the rescale is skipped, so a surviving raw
value may lie outside the range — see the counterexample.) -/
theorem c2_normalizer_bounded (cells : List Cell) :
    (∀ c ∈ normalizeColumn cells, c.isSome) ∧
    (2 ≤ countSome cells →
      ∀ c ∈ normalizeColumn cells, ∃ v, c = some v ∧ -1 ≤ v ∧ v ≤ 1) := by
  constructor
  · intro c hc
    rw [normalizeColumn] at hc
    simp only [fillMissing] at hc
    obtain ⟨a, _, rfl⟩ := List.mem_map.mp hc
    simp
  · intro h2 c hc
    rw [normalizeColumn] at hc
    simp only [fillMissing] at hc
    obtain ⟨a, ha, rfl⟩ := List.mem_map.mp hc
    cases a with
    | none => exact ⟨0, rfl, by norm_num, by norm_num⟩
    | some u =>
      have h2w : 2 ≤ countSome (winsorizeMonth (1/100) (99/100) cells) := by
        rw [countSome_winsorize]
        exact h2
      have hb := standardize_mem_bounds h2w (some u) ha u rfl
      exact ⟨u, rfl, hb.1, hb.2⟩

/-- Counterexample to C2 as stated: a period with a single non-missing
observation of 5 passes through the normalizer unrescaled, so the claimed
bound `[-1, 1]` fails for periods with fewer than two non-missing raw
observations. -/
theorem c2_counterexample :
    normalizeColumn [some 5] = [some 5] ∧ ¬ (-1 ≤ (5:ℚ) ∧ (5:ℚ) ≤ 1) := by
  decide

/-- The C2 witness period: two non-missing observations and one missing. -/
def c2ex : List Cell := [some 0, some 2, none]

/-- Witness for C2: on a period with two non-missing observations every
normalized value is present and lies in `[-1, 1]`. -/
theorem c2_witness : 2 ≤ countSome c2ex ∧
    (∀ c ∈ normalizeColumn c2ex, ∃ v, c = some v ∧ -1 ≤ v ∧ v ≤ 1) :=
  ⟨by decide, (c2_normalizer_bounded c2ex).2 (by decide)⟩

/-- Four fully reported quarters for the C3 witness. -/
def c3xs : List Cell := [some 1, some 2, some 3, some 4]

/-- Witness for C3: at the fourth row the TTM sum is `1+2+3+4 = 10`. -/
theorem c3_witness : (3:ℕ) < c3xs.length ∧
    cellAt (rollingSumMin 4 c3xs) 3 = some 10 :=
  ⟨by decide, ((c3_ttm_floor c3xs 3 (by decide)).2.1 10).mpr
    ⟨by decide, by decide,
      by norm_num [sumQ, someVals, windowEnd, List.filterMap, c3xs]⟩⟩

/-- C4 (amended): the preprocessing entry point raises before any
normalization only when structural validation fails — a required identity
column is missing or the panel is empty; duplicate `(entity, date)` rows
only produce a warning, validation still passes, and preprocessing
proceeds to normalization. -/
theorem c4_validation_gate (p : Panel) :
    (validatePanelStructure p = false →
      prepareTreeInput p = .error "Panel validation failed") ∧
    (validatePanelStructure p = true →
      (identifyCharacteristics p).isEmpty = false →
      prepareTreeInput p = .ok (normalizePanel p)) := by
  constructor
  · intro h
    rw [prepareTreeInput, if_pos h]
  · intro h1 h2
    rw [prepareTreeInput, if_neg (by simp [h1]), if_neg (by simp [h2])]

/-- A panel with a duplicated `(ric, date)` row. -/
def dupPanel : Panel :=
  { cols := ["ric", "date", "bm"], charNames := ["bm"],
    rows := [⟨"A", 1, [some 1]⟩, ⟨"A", 1, [some 2]⟩] }

/-- Counterexample to C4 as stated: a panel containing a duplicate
`(entity, date)` row is not rejected — validation passes and the entry
point returns normally instead of raising. -/
theorem c4_counterexample :
    0 < duplicateCount dupPanel ∧ exceptOk (prepareTreeInput dupPanel) = true := by
  decide

/-- Witness for C4: the duplicate panel flows through to normalization. -/
theorem c4_witness : prepareTreeInput dupPanel = .ok (normalizePanel dupPanel) :=
  (c4_validation_gate dupPanel).2 (by decide) (by decide)

/-- C5 (amended): re-running the cross-sectional normalization on an
already-normalized column leaves every previously non-missing value
unchanged exactly when the winsorization step leaves the period untouched
(fewer than 5 non-missing observations); with 5 or more observations the
1%/99% clipping moves the extremes and the subsequent rescale changes
interior values beyond floating-point tolerance — see the
counterexample. -/
theorem c5_idempotent_unwinsorized (cells : List Cell)
    (h2 : 2 ≤ countSome cells) (h5 : countSome cells < 5)
    (hmn : listMin (someVals cells) = -1)
    (hmx : listMax (someVals cells) = 1) :
    ∀ i : ℕ, ∀ v : ℚ, cellAt cells i = some v →
      cellAt (normalizeColumn cells) i = some v := by
  intro i v hv
  have hi : i < cells.length := cellAt_some_lt hv
  have hwin : winsorizeMonth (1/100) (99/100) cells = cells := by
    rw [winsorizeMonth, if_neg (by omega)]
  have h2' : ¬ ((someVals cells).length < 2) := by
    have : countSome cells = (someVals cells).length := rfl
    omega
  have hstd : standardizeMinmaxMonth cells =
      cells.map (Option.map (fun u =>
        2 * (u - listMin (someVals cells)) /
          (listMax (someVals cells) - listMin (someVals cells)) - 1)) := by
    simp only [standardizeMinmaxMonth]
    rw [if_neg h2', if_neg (by rw [hmn, hmx]; norm_num)]
  rw [normalizeColumn, hwin, hstd, fillMissing]
  rw [cellAt_map _ _ _ (by simpa using hi), cellAt_map _ _ _ hi, hv]
  simp only [Option.map_some', Option.getD_some, hmn, hmx]
  norm_num

/-- A 3-observation period as a prior normalization leaves it. -/
def c5ex3 : List Cell := [some (-1), some 0, some 1]

/-- Witness for C5: with fewer than 5 observations the re-run is the
identity on present values. -/
theorem c5_witness :
    (2 ≤ countSome c5ex3 ∧ countSome c5ex3 < 5 ∧
      listMin (someVals c5ex3) = -1 ∧ listMax (someVals c5ex3) = 1) ∧
    cellAt (normalizeColumn c5ex3) 1 = some 0 :=
  ⟨⟨by decide, by decide, by decide, by decide⟩,
    c5_idempotent_unwinsorized c5ex3 (by decide) (by decide) (by decide)
      (by decide) 1 0 (by decide)⟩

/-- A 5-observation period as a prior minmax normalization leaves it. -/
def c5ex5 : List Cell :=
  [some (-1), some (-(1:ℚ)/2), some 0, some (1/2), some 1]

lemma c5win : winsorizeMonth (1/100) (99/100) c5ex5 =
    [some (-(49:ℚ)/50), some (-(1:ℚ)/2), some 0, some (1/2), some ((49:ℚ)/50)] := by
  rw [winsorizeMonth,
    if_pos (by norm_num [countSome, someVals, c5ex5, List.filterMap])]
  have hvals : someVals c5ex5 = [-1, -(1:ℚ)/2, 0, 1/2, 1] := by
    norm_num [someVals, c5ex5, List.filterMap]
  rw [hvals]
  have hlo : quantileLinear [-1, -(1:ℚ)/2, 0, 1/2, 1] (1/100) = -((49:ℚ)/50) := by
    norm_num [quantileLinear, sortQ, insertSorted, List.getD, Int.toNat_ofNat]
  have hhi : quantileLinear [-1, -(1:ℚ)/2, 0, 1/2, 1] (99/100) = (49:ℚ)/50 := by
    norm_num [quantileLinear, sortQ, insertSorted, List.getD, Int.toNat_ofNat,
      show Int.toNat 3 = 3 from rfl, show (3 + 1) ⊓ 4 = 4 from rfl]
  rw [hlo, hhi]
  norm_num [clipQ, c5ex5, min_def, max_def]

lemma c5norm : normalizeColumn c5ex5 =
    [some (-1), some (-(25:ℚ)/49), some 0, some ((25:ℚ)/49), some 1] := by
  rw [normalizeColumn, c5win]
  have hstd : standardizeMinmaxMonth
      [some (-(49:ℚ)/50), some (-(1:ℚ)/2), some 0, some (1/2), some ((49:ℚ)/50)] =
      [some (-1), some (-(25:ℚ)/49), some 0, some ((25:ℚ)/49), some 1] := by
    simp only [standardizeMinmaxMonth]
    norm_num [someVals, List.filterMap, listMin, listMax, min_def, max_def]
  rw [hstd]
  norm_num [fillMissing]

/-- Counterexample to C5 as stated: re-running the full normalization
(with winsorization active at 5 observations) moves the already-normalized
value `-1/2` to `-25/49`, a change of `1/98` — far beyond floating-point
tolerance. -/
theorem c5_counterexample :
    cellAt c5ex5 1 = some (-(1:ℚ)/2) ∧
    cellAt (normalizeColumn c5ex5) 1 = some (-(25:ℚ)/49) ∧
    ¬ (|(-(25:ℚ)/49) - (-(1:ℚ)/2)| < 1/100) := by
  refine ⟨by rfl, by rw [c5norm]; rfl, ?_⟩
  norm_num [abs_sub_lt_iff]
  rw [abs_of_pos (by norm_num : (0:ℚ) < 1/98)]
  norm_num

/-- C6 (amended): in a calendar period with at least two entities all
sharing the identical non-missing raw value (so max equals min), min-max
rescaling maps every entity's value to exactly 0.  (With a single entity
the `< 2`-observation guard skips the rescale — see the counterexample.) -/
theorem c6_degenerate_to_zero (cells : List Cell) (v : ℚ)
    (h2 : 2 ≤ cells.length) (hall : ∀ c ∈ cells, c = some v) :
    standardizeMinmaxMonth cells = List.replicate cells.length (some 0) := by
  have hsv : someVals cells = List.replicate cells.length v :=
    someVals_all_eq cells hall
  have hlen : (someVals cells).length = cells.length := by rw [hsv]; simp
  obtain ⟨n, hn⟩ : ∃ n, cells.length = n + 1 := ⟨cells.length - 1, by omega⟩
  have hmn : listMin (someVals cells) = v := by
    rw [hsv, hn]; exact listMin_replicate n v
  have hmx : listMax (someVals cells) = v := by
    rw [hsv, hn]; exact listMax_replicate n v
  simp only [standardizeMinmaxMonth]
  rw [if_neg (by omega), if_pos (by rw [hmn, hmx])]
  simp

/-- Counterexample to C6 as stated: a period holding a single entity has
max equal to min, yet the rescale is skipped by the minimum-observation
guard and the value stays 5 instead of 0. -/
theorem c6_counterexample :
    standardizeMinmaxMonth [some (5:ℚ)] = [some 5] ∧
    ([some (5:ℚ)] : List Cell) ≠ [some 0] := by
  decide

/-- The degenerate two-entity period for the C6 witness. -/
def c6ex : List Cell := [some 3, some 3]

/-- Witness for C6: two entities sharing the value 3 both map to 0. -/
theorem c6_witness : 2 ≤ c6ex.length ∧
    standardizeMinmaxMonth c6ex = [some 0, some 0] :=
  ⟨by decide, by rw [c6_degenerate_to_zero c6ex 3 (by decide) (by decide)]; rfl⟩

/-- The failing input for C7: thirteen months of returns with a single
missing month, so the 11-month window at the last row holds 10 non-missing
returns — at least the 6 the code's own guard requires. -/
def retsBug : List Cell :=
  [some (1/10), some (1/10), some (1/10), some (1/10), some (1/10), none,
   some (1/10), some (1/10), some (1/10), some (1/10), some (1/10),
   some (1/10), some (1/10)]

/-- C7 (code bug): the momentum window at row 12 holds 10 ≥ 6 non-missing
returns, yet the code yields missing — the `min_periods` default of 11 in
`rolling(11)` makes the `>= 6` guard inside
`compute_core_characteristics` unreachable, so momentum is missing unless
all 11 window returns are present (as the full-window row shows). -/
theorem c7_momentum_dead_guard :
    6 ≤ countSome (windowEnd 11 (shift1 retsBug) 12) ∧
    cellAt (momCode retsBug) 12 = none ∧
    (cellAt (momGuardIntended retsBug) 12).isSome = true ∧
    (cellAt (momCode (List.replicate 13 (some (1/10 : ℚ)))) 12).isSome = true := by
  decide

/-- The failing input for C8: the lookup succeeds for month 1 with
constituents A and B and raises for month 2. -/
def fetchEx : ℕ → Except String (List String) :=
  fun d => if d = 1 then .ok ["A", "B"] else .error "constituent lookup failed"

/-- C8 (code bug): a failed month does not abort the range and the other
month's memberships survive with the failed month contributing zero pairs —
but the final `dropna(subset=["ric"])` also deletes the error placeholder
row, so no error record reaches the caller, contradicting the claim that it
is retained in the result. -/
theorem c8_error_record_dropped :
    buildUniverse fetchEx [1, 2] =
      [⟨1, some "A", none⟩, ⟨1, some "B", none⟩] ∧
    (∀ r ∈ buildUniverse fetchEx [1, 2], r.err = none ∧ r.date = 1) := by
  decide

/-- C9: after the volume clean-up, the monthly traded-volume column has no
missing entry: a missing month is stored as 0, a present value is kept
as-is, and a missing month is indistinguishable from a genuinely
zero-trading month in the downstream turnover and dollar-volume
characteristics. -/
theorem c9_volume_filled (vols : List Cell) (i : ℕ) (h : i < vols.length) :
    (∀ c ∈ cleanVolume vols, c.isSome) ∧
    cellAt (cleanVolume vols) i = some ((cellAt vols i).getD 0) ∧
    (cellAt vols i = none → cellAt (cleanVolume vols) i = some 0) ∧
    (∀ v : ℚ, cellAt vols i = some v → cellAt (cleanVolume vols) i = some v) ∧
    ((cellAt vols i = none ∨ cellAt vols i = some 0) →
      (∀ sh, turnoverCell (cellAt (cleanVolume vols) i) sh =
        turnoverCell (some 0) sh) ∧
      (∀ cl, dolvolCell (cellAt (cleanVolume vols) i) cl =
        dolvolCell (some 0) cl)) := by
  have hmap : cellAt (cleanVolume vols) i = some ((cellAt vols i).getD 0) :=
    cellAt_map _ _ _ h
  refine ⟨?_, hmap, ?_, ?_, ?_⟩
  · intro c hc
    obtain ⟨a, _, rfl⟩ := List.mem_map.mp hc
    simp
  · intro hnone
    rw [hmap, hnone]
    rfl
  · intro v hval
    rw [hmap, hval]
    rfl
  · intro hz
    have : cellAt (cleanVolume vols) i = some 0 := by
      rcases hz with hz | hz <;> rw [hmap, hz] <;> rfl
    rw [this]
    exact ⟨fun _ => rfl, fun _ => rfl⟩

/-- The volume column for the C9 witness: one missing month, one real one. -/
def c9ex : List Cell := [none, some 2]

/-- Witness for C9: the missing first month is stored as 0. -/
theorem c9_witness : (0:ℕ) < c9ex.length ∧
    cellAt (cleanVolume c9ex) 0 = some 0 :=
  ⟨by decide, (c9_volume_filled c9ex 0 (by decide)).2.2.1 (by decide)⟩

/-- C10: the zerotrade indicator is total and never missing — for every row
it equals 1 exactly when volume is a present 0, and 0 otherwise, in
particular 0 (not missing) when the volume value itself is missing; over a
column it yields one integer per row. -/
theorem c10_zerotrade_total (v : Cell) (vs : List Cell) :
    (zerotradeCell v = 1 ↔ v = some 0) ∧
    (zerotradeCell v = 0 ↔ v ≠ some 0) ∧
    zerotradeCell none = 0 ∧
    (zerotradeCell v = 0 ∨ zerotradeCell v = 1) ∧
    (vs.map zerotradeCell).length = vs.length := by
  refine ⟨?_, ?_, rfl, ?_, by simp⟩ <;>
    cases v with
    | none => simp [zerotradeCell]
    | some x =>
      by_cases hx : x = 0 <;> simp [zerotradeCell, hx]

end PTrees
